import Mathlib

/-!
Verification of the win-path-convert core: the path rewriter
(`ShouldConvert` / `isExcluded` / `Convert` / `compileExcludePatterns` in
internal/pathconv), the change detector (`HasChanged` / `QuickHash` in
internal/clipboard) and the orchestration cycle (`processClipboardChange`
in internal/app).

Modelling conventions:
* Go strings are modelled as Lean `String` (`List Char` of runes); where the
  Go code indexes raw bytes (the drive-letter check) the model goes through
  an explicit UTF-8 encoder, so byte indexing is faithful also on
  multi-byte text.
* Machine integers are `Nat` with explicit `% 2 ^ 64` in the FNV-1a hash.
* Clipboard I/O outcomes are passed in explicitly (`Option String` for the
  read, a `Bool` for write success); state is explicit (the stored
  last-content-hash string).
-/

namespace WinPathConvert

/-- Character-wise lowering of ASCII letters, modelling `strings.ToLower`
as used for the protocol-prefix checks (all protocol prefixes are ASCII,
and no non-ASCII rune lowers to an ASCII letter of those prefixes). -/
def lowerChar (c : Char) : Char :=
  if 'A' ≤ c ∧ c ≤ 'Z' then Char.ofNat (c.toNat + 32) else c

/-- Lower-cased copy of a rune list (`strings.ToLower`). -/
def asciiLower (l : List Char) : List Char := l.map lowerChar

/-- Go `strings.HasPrefix` on rune lists: text, then the leading part. -/
def startsWithL : List Char → List Char → Bool
  | _, [] => true
  | [], _ :: _ => false
  | c :: cs, d :: ds => c == d && startsWithL cs ds

/-- Drop every leading rune from the cutset, one side of `strings.Trim`. -/
def dropQuotesAtFront (l : List Char) : List Char :=
  l.dropWhile (fun c => c == '"')

/-- Go `strings.Trim(text, "\"")`: remove all leading and all trailing
double-quote runes. -/
def trimQuotes (l : List Char) : List Char :=
  ((dropQuotesAtFront l).reverse.dropWhile (fun c => c == '"')).reverse

/-- Single-character image of the backslash replacement. -/
def replChar (c : Char) : Char := if c == '\\' then '/' else c

/-- Go `strings.ReplaceAll(content, "\\", "/")`: with a one-rune pattern
this is a character-wise map. -/
def replaceBackslashes (l : List Char) : List Char := l.map replChar

/-- Standard UTF-8 encoding of one rune, matching how Go lays out string
bytes (`text[i]` in Go indexes these bytes). -/
def utf8EncodeChar (c : Char) : List Nat :=
  let n := c.toNat
  if n < 128 then [n]
  else if n < 2048 then [192 + n / 64, 128 + n % 64]
  else if n < 65536 then [224 + n / 4096, 128 + (n / 64) % 64, 128 + n % 64]
  else [240 + n / 262144, 128 + (n / 4096) % 64, 128 + (n / 64) % 64, 128 + n % 64]

/-- UTF-8 byte sequence of a rune list (Go `[]byte(text)`). -/
def utf8Bytes (l : List Char) : List Nat := (l.map utf8EncodeChar).flatten

/-- Go `strings.Split(text, "%")`. -/
def splitOnPercent : List Char → List (List Char)
  | [] => [[]]
  | c :: rest =>
    if c == '%' then [] :: splitOnPercent rest
    else
      match splitOnPercent rest with
      | [] => [[c]]
      | p :: ps => (c :: p) :: ps

/-- Whether the compiled pattern of the env-var regexp matches somewhere in
the text. A text contains a well-formed delimited run (two percent signs
with a non-empty percent-free interior) exactly when some interior segment
of the percent-split is non-empty. -/
def envVarMatches (parts : List (List Char)) : Bool :=
  ((parts.drop 1).dropLast).any (fun p => !p.isEmpty)

/-- The env-var carve-out loop of `isExcluded`: scan odd indices strictly
below `len(parts)-1` and report whether any such segment holds a
backslash. -/
def oddInteriorBackslash (parts : List (List Char)) : Bool :=
  (List.range parts.length).any
    (fun i => decide (i % 2 = 1) && decide (i + 1 < parts.length) &&
      ((parts.getD i []).contains '\\'))

/-- Compiled user exclude pattern: the regex fragment that the glob
translation produces, a sequence of literal runes and any-run wildcards. -/
inductive RItem where
  | lit : Char → RItem
  | anyRun : RItem
deriving DecidableEq, Repr

/-- Any-run search: try the rest of the pattern (`k`) on every suffix of
the text reachable by consuming a newline-free run. -/
def matchRun (k : List Char → Bool) : List Char → Bool
  | [] => k []
  | d :: ds => k (d :: ds) || (!(d == '\n') && matchRun k ds)

/-- Modelled from the spec: matching of a compiled exclude pattern, the Go
`regexp` library being outside this repository. The spec fixes the
semantics: the pattern is anchored on both sides (full-string match) and a
wildcard stands for any run of characters; as in the library, the any-run
wildcard (a dot form) does not cross a newline. -/
def matchItems : List RItem → List Char → Bool
  | [], text => text.isEmpty
  | RItem.lit c :: items, text =>
    match text with
    | [] => false
    | d :: ds => c == d && matchItems items ds
  | RItem.anyRun :: items, text => matchRun (matchItems items) text

/-- Literal runes the compiled-pattern parser accepts (conservative safe
set; everything else makes compilation fail and the pattern be skipped). -/
def isSafeLit (c : Char) : Bool :=
  c.isAlphanum || c ∈ [':', '/', '-', '_', '%', '~', ' ', ',']

/-- Modelled from the spec: parsing the translated glob (dots escaped,
each star expanded to an any-run) into a compiled pattern; anything
outside this fragment fails to compile. -/
def parseItems : List Char → Option (List RItem)
  | [] => some []
  | '\\' :: '.' :: rest => (parseItems rest).map (RItem.lit '.' :: ·)
  | '.' :: '*' :: rest => (parseItems rest).map (RItem.anyRun :: ·)
  | c :: rest => if isSafeLit c then (parseItems rest).map (RItem.lit c :: ·) else none

/-- Modelled from the spec: compiling the anchored regex string produced by
the glob translation; the leading and trailing anchors are consumed and
the interior parsed. -/
def parseAnchored (s : List Char) : Option (List RItem) :=
  match s with
  | '^' :: rest =>
    match rest.getLast? with
    | some '$' => parseItems rest.dropLast
    | _ => none
  | _ => none

/-- Go `strings.ReplaceAll(pattern, ".", "\\.")`: with a one-rune search
pattern this rewrites each dot in place. -/
def escapeDots (l : List Char) : List Char :=
  (l.map (fun c => if c == '.' then ['\\', '.'] else [c])).flatten

/-- Go `strings.ReplaceAll(regexPattern, "*", ".*")`. -/
def expandStars (l : List Char) : List Char :=
  (l.map (fun c => if c == '*' then ['.', '*'] else [c])).flatten

/-- The glob-to-regex translation of `compileExcludePatterns`: escape
literal dots, then expand each star, then anchor both ends. -/
def globToRegexChars (pattern : List Char) : List Char :=
  '^' :: (expandStars (escapeDots pattern) ++ ['$'])

/-- Go `compileExcludePatterns`: translate and compile each glob, skipping
(in order) every pattern that fails to compile. -/
def compileExcludePatterns (patterns : List String) : List (List RItem) :=
  patterns.filterMap (fun p => parseAnchored (globToRegexChars p.data))

/-- Go `isExcluded` (internal/pathconv), on the quote-trimmed rune list:
protocol prefixes on a lower-cased copy, then the compiled user patterns,
then the env-var special case whose loop result is returned directly
(found backslash in an odd interior segment yields `true`, otherwise the
branch yields `false`). -/
def isExcludedL (regexps : List (List RItem)) (text : List Char) : Bool :=
  let lowerText := asciiLower text
  if startsWithL lowerText "http://".data || startsWithL lowerText "https://".data then
    true
  else if startsWithL lowerText "mailto:".data || startsWithL lowerText "ftp://".data ||
      startsWithL lowerText "file://".data then
    true
  else if regexps.any (fun r => matchItems r text) then
    true
  else if decide (2 ≤ text.count '%') && envVarMatches (splitOnPercent text) then
    oddInteriorBackslash (splitOnPercent text)
  else
    false

/-- The drive-letter absolute-path shape test of `ShouldConvert`: at least
three bytes, byte 1 a colon, byte 2 a backslash or a forward slash (Go
indexes bytes, hence the UTF-8 view). -/
def driveLetterCheck (trimmed : List Char) : Bool :=
  let bs := utf8Bytes trimmed
  decide (3 ≤ bs.length) && (bs.getD 1 0 == 58) &&
    ((bs.getD 2 0 == 92) || (bs.getD 2 0 == 47))

/-- Go `ShouldConvert` on the rune list: empty check, quote trim,
backslash-presence gate, exclusion check, then drive-letter shape, UNC
shape and the contains-backslash catch-all. -/
def shouldConvertL (regexps : List (List RItem)) (text : List Char) : Bool :=
  if text.isEmpty then false
  else
    let trimmed := trimQuotes text
    if !(trimmed.contains '\\') then false
    else if isExcludedL regexps trimmed then false
    else if driveLetterCheck trimmed then true
    else if startsWithL trimmed ['\\', '\\'] then true
    else if trimmed.contains '\\' then true
    else false

/-- Go `Convert` on the rune list: note quotes were present (a leading and
a trailing double quote on the original text), trim all edge quotes,
replace backslashes, return the input verbatim when nothing changed, and
re-wrap in one pair of quotes when quotes were present. -/
def convertL (text : List Char) : List Char :=
  let hasQuotes := text.head? == some '"' && text.getLast? == some '"'
  let content := trimQuotes text
  let converted := replaceBackslashes content
  if converted = content then text
  else if hasQuotes then '"' :: (converted ++ ['"'])
  else converted

/-- Go `PathConverter.ShouldConvert`, taking the compiled exclude set. -/
def ShouldConvert (regexps : List (List RItem)) (text : String) : Bool :=
  shouldConvertL regexps text.data

/-- Go `PathConverter.isExcluded`, taking the compiled exclude set. -/
def isExcluded (regexps : List (List RItem)) (text : String) : Bool :=
  isExcludedL regexps text.data

/-- Go `PathConverter.Convert`. -/
def Convert (text : String) : String := ⟨convertL text.data⟩

/-- FNV-1a 64-bit prime. -/
def fnvPrime : Nat := 1099511628211

/-- FNV-1a 64-bit offset basis. -/
def fnvOffset : Nat := 14695981039346656037

/-- One FNV-1a step: xor the byte in, multiply by the prime, in 64 bits. -/
def fnvStep (h b : Nat) : Nat := ((h ^^^ b) * fnvPrime) % (2 ^ 64)

/-- FNV-1a 64-bit digest of a byte sequence (Go `hash/fnv`, `New64a`). -/
def fnv64a (bytes : List Nat) : Nat := bytes.foldl fnvStep fnvOffset

/-- Lower-case hex digit. -/
def hexDigitChar (n : Nat) : Char :=
  if n < 10 then Char.ofNat (48 + n) else Char.ofNat (87 + n)

/-- Sixteen hex digits, most significant nibble first: Go appends the
digest big-endian and hex-encodes it. -/
def toHex16 (n : Nat) : List Char :=
  (List.range 16).map (fun i => hexDigitChar (n / 16 ^ (15 - i) % 16))

/-- Go `QuickHash`: FNV-1a 64-bit over the UTF-8 bytes, hex-encoded. -/
def QuickHash (text : String) : String := ⟨toHex16 (fnv64a (utf8Bytes text.data))⟩

/-- Go `ClipboardManager.HasChanged`, given the text a successful read
returned and the stored last-content-hash; yields the reported flag and
the stored hash after the call (the code overwrites it when changed). -/
def HasChanged (lastContentHash : String) (text : String) : Bool × String :=
  let currentHash := QuickHash text
  let changed := currentHash != lastContentHash
  (changed, if changed then currentHash else lastContentHash)

/-- Unicode white-space runes (Go `unicode.IsSpace`). -/
def isSpaceChar (c : Char) : Bool :=
  c.toNat ∈ ([9, 10, 11, 12, 13, 32, 133, 160, 5760,
    8192, 8193, 8194, 8195, 8196, 8197, 8198, 8199, 8200, 8201, 8202,
    8232, 8233, 8239, 8287, 12288] : List Nat)

/-- Go `strings.TrimSpace` on the rune list. -/
def trimSpaceL (l : List Char) : List Char :=
  ((l.dropWhile isSpaceChar).reverse.dropWhile isSpaceChar).reverse

/-- Go `strings.TrimSpace`. -/
def trimSpace (s : String) : String := ⟨trimSpaceL s.data⟩

/-- Application configuration (internal/config `Config`); the poll
interval is in milliseconds. -/
structure Config where
  pollIntervalMs : Nat
  autoConvert : Bool
  showNotifications : Bool
  excludePatterns : List String
  logLevel : String
  mutexName : String
deriving Repr, DecidableEq

/-- Go `DefaultConfig`. -/
def defaultConfig : Config where
  pollIntervalMs := 100
  autoConvert := true
  showNotifications := true
  excludePatterns := ["http://*", "https://*", "mailto:*", "ftp://*", "file://*"]
  logLevel := "info"
  mutexName := "PathConvertToolMutex"

/-- Go `processClipboardChange` (internal/app), one cycle: the read
outcome and the write outcome are passed in (`none` models a read that
failed after all retries; `setOk = false` a write-back that failed, the
collaborator never writing partially). Input state is the stored
last-content-hash; the result is the stored hash after the cycle and the
text written back, if any. -/
def processClipboardChange (cfg : Config) (readResult : Option String)
    (setOk : Bool) (lastHash : String) : String × Option String :=
  if !cfg.autoConvert then (lastHash, none)
  else
    match readResult with
    | none => (lastHash, none)
    | some rawText =>
      let normalized := trimSpace rawText
      let currentHash := QuickHash normalized
      if currentHash == lastHash then (lastHash, none)
      else if !(ShouldConvert (compileExcludePatterns cfg.excludePatterns) rawText) then
        (currentHash, none)
      else
        let converted := Convert rawText
        if converted != rawText then
          if setOk then (QuickHash converted, some converted)
          else (lastHash, none)
        else (currentHash, none)

/-! Helper lemmas about the string model. -/

theorem length_dropWhile_le' (p : α → Bool) (l : List α) :
    (l.dropWhile p).length ≤ l.length := by
  induction l with
  | nil => simp
  | cons c cs ih =>
    by_cases h : p c
    · simp only [List.dropWhile_cons_of_pos h]
      exact Nat.le_trans ih (Nat.le_succ _)
    · simp [List.dropWhile_cons_of_neg h]

theorem dropWhile_eq_self_of_length (p : α → Bool) (l : List α)
    (h : (l.dropWhile p).length = l.length) : l.dropWhile p = l := by
  induction l with
  | nil => simp
  | cons c cs ih =>
    by_cases hc : p c
    · exfalso
      rw [List.dropWhile_cons_of_pos hc] at h
      have := length_dropWhile_le' p cs
      simp only [List.length_cons] at h
      omega
    · simp [List.dropWhile_cons_of_neg hc]

theorem trimQuotes_length_le (l : List Char) : (trimQuotes l).length ≤ l.length := by
  unfold trimQuotes dropQuotesAtFront
  calc (((l.dropWhile (fun c => c == '"')).reverse.dropWhile
        (fun c => c == '"')).reverse).length
      = ((l.dropWhile (fun c => c == '"')).reverse.dropWhile
        (fun c => c == '"')).length := List.length_reverse _
    _ ≤ (l.dropWhile (fun c => c == '"')).reverse.length := length_dropWhile_le' _ _
    _ = (l.dropWhile (fun c => c == '"')).length := List.length_reverse _
    _ ≤ l.length := length_dropWhile_le' _ _

theorem trimQuotes_eq_self_of_length (l : List Char)
    (h : (trimQuotes l).length = l.length) : trimQuotes l = l := by
  unfold trimQuotes dropQuotesAtFront at *
  set fr := l.dropWhile (fun c => c == '"') with hfr
  have h1 : fr.length = l.length := by
    have hle1 : ((fr.reverse.dropWhile (fun c => c == '"')).reverse).length
        ≤ fr.length := by
      rw [List.length_reverse]
      calc (fr.reverse.dropWhile (fun c => c == '"')).length
          ≤ fr.reverse.length := length_dropWhile_le' _ _
        _ = fr.length := List.length_reverse _
    have hle2 : fr.length ≤ l.length := length_dropWhile_le' _ _
    omega
  have hfr_eq : fr = l := dropWhile_eq_self_of_length _ _ h1
  have h2 : (fr.reverse.dropWhile (fun c => c == '"')).length = fr.reverse.length := by
    rw [List.length_reverse]
    rw [List.length_reverse] at h
    omega
  have := dropWhile_eq_self_of_length (fun c => c == '"') fr.reverse h2
  rw [this, List.reverse_reverse, hfr_eq]

theorem replaceBackslashes_ne (l : List Char) (h : '\\' ∈ l) :
    replaceBackslashes l ≠ l := by
  unfold replaceBackslashes
  induction l with
  | nil => simp at h
  | cons c cs ih =>
    intro heq
    rw [List.map_cons, List.cons.injEq] at heq
    rcases List.mem_cons.mp h with hc | hcs
    · rw [← hc] at heq
      exact absurd heq.1 (by decide)
    · exact ih hcs heq.2

theorem replaceBackslashes_eq_self (l : List Char) (h : '\\' ∉ l) :
    replaceBackslashes l = l := by
  unfold replaceBackslashes
  induction l with
  | nil => simp
  | cons c cs ih =>
    have hc : c ≠ '\\' := fun hc => h (hc ▸ List.mem_cons_self c cs)
    have : replChar c = c := by
      unfold replChar
      simp [beq_eq_false_iff_ne.mpr hc]
    rw [List.map_cons, this, ih (fun hm => h (List.mem_cons_of_mem c hm))]

theorem trimQuotes_head_ne (l : List Char) (c : Char)
    (h : (trimQuotes l).head? = some c) : c ≠ '"' := by
  unfold trimQuotes at h
  set fr := dropQuotesAtFront l with hfr
  have hsuf : fr.reverse.dropWhile (fun c => c == '"') <:+ fr.reverse :=
    List.dropWhile_suffix _
  have hpre : (fr.reverse.dropWhile (fun c => c == '"')).reverse <+: fr := by
    have := List.reverse_prefix.mpr hsuf
    rwa [List.reverse_reverse] at this
  obtain ⟨t, ht⟩ := hpre
  have hhd : fr.head? = some c := by
    rw [← ht]
    cases hcase : (fr.reverse.dropWhile (fun c => c == '"')).reverse with
    | nil => rw [hcase] at h; simp at h
    | cons x xs =>
      rw [hcase] at h
      simp only [List.head?_cons, Option.some.injEq] at h
      simp [hcase, h]
  have := List.head?_dropWhile_not (fun c => c == '"') l
  rw [show l.dropWhile (fun c => c == '"') = fr from rfl, hhd] at this
  simpa using this

theorem trimQuotes_getLast_ne (l : List Char) (c : Char)
    (h : (trimQuotes l).getLast? = some c) : c ≠ '"' := by
  unfold trimQuotes at h
  rw [List.getLast?_reverse] at h
  have := List.head?_dropWhile_not (fun c => c == '"') (dropQuotesAtFront l).reverse
  rw [h] at this
  simpa using this

theorem trimQuotes_eq_self (l : List Char)
    (h1 : l.head? ≠ some '"') (h2 : l.getLast? ≠ some '"') : trimQuotes l = l := by
  unfold trimQuotes dropQuotesAtFront
  have hfr : l.dropWhile (fun c => c == '"') = l := by
    cases l with
    | nil => simp
    | cons x xs =>
      have hx : ¬ (x == '"') = true := by
        simp only [List.head?_cons, ne_eq, Option.some.injEq] at h1
        simpa using h1
      rw [List.dropWhile_cons_of_neg (p := fun c => c == '"') (a := x) hx]
  rw [hfr]
  have hrv : l.reverse.dropWhile (fun c => c == '"') = l.reverse := by
    cases hc : l.reverse with
    | nil => simp
    | cons x xs =>
      have hx : l.reverse.head? = some x := by simp [hc]
      rw [List.head?_reverse] at hx
      have hq : ¬ (x == '"') = true := by
        rw [hx] at h2
        simp only [ne_eq, Option.some.injEq] at h2
        simpa using h2
      rw [List.dropWhile_cons_of_neg (p := fun c => c == '"') (a := x) hq]
  rw [hrv, List.reverse_reverse]

theorem trimQuotes_cons_quote (xs : List Char) :
    trimQuotes ('"' :: xs) = trimQuotes xs := by
  unfold trimQuotes dropQuotesAtFront
  rw [List.dropWhile_cons_of_pos (by decide)]

theorem dropWhile_append_of_ne_nil (p : α → Bool) (xs ys : List α)
    (h : xs.dropWhile p ≠ []) :
    (xs ++ ys).dropWhile p = xs.dropWhile p ++ ys := by
  induction xs with
  | nil => simp at h
  | cons c cs ih =>
    by_cases hc : p c
    · rw [List.cons_append, List.dropWhile_cons_of_pos hc,
        List.dropWhile_cons_of_pos hc]
      rw [List.dropWhile_cons_of_pos hc] at h
      exact ih h
    · rw [List.cons_append, List.dropWhile_cons_of_neg hc,
        List.dropWhile_cons_of_neg hc, List.cons_append]

theorem trimQuotes_append_quote (xs : List Char) :
    trimQuotes (xs ++ ['"']) = trimQuotes xs := by
  unfold trimQuotes dropQuotesAtFront
  by_cases he : xs.dropWhile (fun c => c == '"') = []
  · have hall : ∀ a ∈ xs, (a == '"') = true := List.dropWhile_eq_nil_iff.mp he
    rw [List.dropWhile_append_of_pos hall, he]
    decide
  · rw [dropWhile_append_of_ne_nil _ _ _ he, List.reverse_append]
    simp only [List.reverse_cons, List.reverse_nil, List.nil_append,
      List.singleton_append]
    rw [List.dropWhile_cons_of_pos (by decide)]

theorem shouldConvertL_backslash (regexps : List (List RItem)) (l : List Char)
    (h : shouldConvertL regexps l = true) : '\\' ∈ trimQuotes l := by
  unfold shouldConvertL at h
  by_cases he : l.isEmpty
  · simp [he] at h
  · simp only [he, Bool.false_eq_true, if_false] at h
    simp at h
    exact h.1

theorem convertL_ne (l : List Char) (hb : '\\' ∈ trimQuotes l) : convertL l ≠ l := by
  intro heq
  unfold convertL at heq
  have hne : replaceBackslashes (trimQuotes l) ≠ trimQuotes l :=
    replaceBackslashes_ne _ hb
  rw [if_neg hne] at heq
  by_cases hq : (l.head? == some '"' && l.getLast? == some '"') = true
  · rw [if_pos hq] at heq
    -- the rewrapped result coincides with the input, so the input is the
    -- converted content between one pair of quotes
    have h1 : trimQuotes l =
        trimQuotes (replaceBackslashes (trimQuotes l) ++ ['"']) := by
      conv_lhs => rw [← heq]
      rw [trimQuotes_cons_quote]
    rw [trimQuotes_append_quote] at h1
    have h2 : trimQuotes (replaceBackslashes (trimQuotes l)) =
        replaceBackslashes (trimQuotes l) := by
      apply trimQuotes_eq_self
      · intro hhd
        unfold replaceBackslashes at hhd
        rw [List.head?_map] at hhd
        cases hc : (trimQuotes l).head? with
        | none => rw [hc] at hhd; exact absurd hhd (by decide)
        | some c =>
          rw [hc] at hhd
          simp at hhd
          have hcne : c ≠ '"' := trimQuotes_head_ne l c hc
          unfold replChar at hhd
          by_cases hcb : (c == '\\') = true
          · rw [if_pos hcb] at hhd; exact absurd hhd (by decide)
          · rw [if_neg hcb] at hhd; exact hcne hhd
      · intro hlt
        unfold replaceBackslashes at hlt
        rw [List.getLast?_map] at hlt
        cases hc : (trimQuotes l).getLast? with
        | none => rw [hc] at hlt; exact absurd hlt (by decide)
        | some c =>
          rw [hc] at hlt
          simp at hlt
          have hcne : c ≠ '"' := trimQuotes_getLast_ne l c hc
          unfold replChar at hlt
          by_cases hcb : (c == '\\') = true
          · rw [if_pos hcb] at hlt; exact absurd hlt (by decide)
          · rw [if_neg hcb] at hlt; exact hcne hlt
    rw [h2] at h1
    exact hne h1.symm
  · rw [if_neg hq] at heq
    have hlen : (trimQuotes l).length = l.length := by
      have : (replaceBackslashes (trimQuotes l)).length = l.length := by
        rw [heq]
      unfold replaceBackslashes at this
      rwa [List.length_map] at this
    have := trimQuotes_eq_self_of_length l hlen
    rw [this] at heq hne
    exact hne heq

/-! Claim theorems. -/

/-- C1: the claim states that a text reaching the environment-variable
check whose percent-split has an odd-indexed segment containing a
backslash has its exclusion overridden (`isExcluded` false, `ShouldConvert`
true). The code does the opposite: at such an input (here with no user
exclude patterns at all) every claim-side condition holds — the percent
count is at least two, the env-var pattern matches, an odd interior
segment holds a backslash — yet `isExcluded` returns true and
`ShouldConvert` returns false, contradicting the inline comments of the
branch itself. -/
theorem c1_env_override_code_eval :
    2 ≤ ("%A\\B%".data.count '%') ∧
    envVarMatches (splitOnPercent "%A\\B%".data) = true ∧
    oddInteriorBackslash (splitOnPercent "%A\\B%".data) = true ∧
    isExcluded [] "%A\\B%" = true ∧
    ShouldConvert [] "%A\\B%" = false := by
  decide

/-- C2, counterexample: `HasChanged` is claimed never to mutate the stored
fingerprint, but on a fresh state (empty stored hash) and text `a` it
reports a change and overwrites the stored hash with the new
fingerprint. -/
theorem c2_haschanged_counterexample :
    (HasChanged "" "a").1 = true ∧ (HasChanged "" "a").2 ≠ "" := by
  decide

/-- C2, amended: `HasChanged` reports a change exactly when the text's
fingerprint differs from the stored one, and it mutates the stored
fingerprint to the current fingerprint exactly when it reports a change,
leaving it untouched otherwise. -/
theorem c2_haschanged_amended (h t : String) :
    ((HasChanged h t).1 = true ↔ QuickHash t ≠ h) ∧
    (QuickHash t ≠ h → (HasChanged h t).2 = QuickHash t) ∧
    (QuickHash t = h → (HasChanged h t).2 = h) := by
  unfold HasChanged
  by_cases he : QuickHash t = h
  · simp [he]
  · simp [he]

/-- C2, witness: the amended theorem applied at the stored hash of the
fresh state and text `a`. -/
theorem c2_haschanged_witness : (HasChanged "" "a").2 = QuickHash "a" :=
  (c2_haschanged_amended "" "a").2.1 (by decide)

/-- C3, counterexample: `C:/Users/test` matches the drive-letter shape and
matches no exclusion under the default pattern set, yet `ShouldConvert`
returns false — the backslash-presence gate runs before the drive-letter
check, so a forward-slash-only drive path is rejected, contrary to the
claim. -/
theorem c3_driveletter_counterexample :
    driveLetterCheck (trimQuotes "C:/Users/test".data) = true ∧
    isExcluded (compileExcludePatterns defaultConfig.excludePatterns) "C:/Users/test" = false ∧
    ShouldConvert (compileExcludePatterns defaultConfig.excludePatterns) "C:/Users/test" = false := by
  decide

/-- C3, amended: a text whose quote-trimmed form contains a backslash and
matches the drive-letter shape converts when no exclusion matches; and any
text whose quote-trimmed form has no backslash (in particular an `X:/`
path with only forward slashes) is never eligible. -/
theorem c3_driveletter_amended :
    (∀ (regexps : List (List RItem)) (t : String),
      '\\' ∈ trimQuotes t.data →
      isExcludedL regexps (trimQuotes t.data) = false →
      driveLetterCheck (trimQuotes t.data) = true →
      ShouldConvert regexps t = true) ∧
    (∀ (regexps : List (List RItem)) (t : String),
      '\\' ∉ trimQuotes t.data → ShouldConvert regexps t = false) := by
  constructor
  · intro regexps t hb hex hd
    unfold ShouldConvert shouldConvertL
    have hne : t.data ≠ [] := by
      intro h0
      rw [h0] at hb
      simp [trimQuotes, dropQuotesAtFront] at hb
    have he : t.data.isEmpty = false := by simpa using hne
    simp [he, hex, hd, hb]
  · intro regexps t hnb
    unfold ShouldConvert shouldConvertL
    by_cases he : t.data.isEmpty
    · simp [he]
    · simp [he, hnb]

/-- C3, witness: the amended theorem applied at a backslash drive path and
at a forward-slash-only drive path. -/
theorem c3_driveletter_witness :
    ShouldConvert [] "C:\\x" = true ∧ ShouldConvert [] "C:/x" = false :=
  ⟨c3_driveletter_amended.1 [] "C:\\x" (by decide) (by decide) (by decide),
   c3_driveletter_amended.2 [] "C:/x" (by decide)⟩

/-- Modelled from the claim's wording, for comparison with the code's
`Convert`: strip exactly one leading and one trailing double quote and
only when both are present, replace backslashes in the interior, and
re-wrap when quotes were present and the interior changed. -/
def convertSpecC4 (text : List Char) : List Char :=
  let hasQuotes := text.head? == some '"' && text.getLast? == some '"'
  let content := if hasQuotes then (text.drop 1).dropLast else text
  let converted := replaceBackslashes content
  if converted = content then text
  else if hasQuotes then '"' :: (converted ++ ['"'])
  else converted

/-- C4, counterexample: on a text with a leading quote but no trailing
quote, the code's `Convert` (Go `strings.Trim`) strips the lone quote,
while the claimed transform (strip only when both sides are quoted) keeps
it; the outputs differ. -/
theorem c4_convert_counterexample :
    Convert "\"C:\\x" = "C:/x" ∧
    convertSpecC4 "\"C:\\x".data = "\"C:/x".data ∧
    Convert "\"C:\\x" ≠ String.mk (convertSpecC4 "\"C:\\x".data) := by
  decide

/-- C4, amended: `Convert` trims all leading and trailing double quotes
(also one-sided runs), replaces every backslash in the trimmed content,
returns the input verbatim when nothing changed, and wraps the result in
one pair of quotes exactly when the original text both began and ended
with a double quote; on the fully quoted path the claimed example output
holds. -/
theorem c4_convert_amended :
    Convert "\"C:\\a\\b\\c\"" = "\"C:/a/b/c\"" ∧
    (∀ t : String, '\\' ∈ trimQuotes t.data →
      t.data.head? = some '"' → t.data.getLast? = some '"' →
      Convert t = String.mk ('"' :: (replaceBackslashes (trimQuotes t.data) ++ ['"']))) ∧
    (∀ t : String, '\\' ∉ trimQuotes t.data → Convert t = t) := by
  refine ⟨by decide, ?_, ?_⟩
  · intro t hb h1 h2
    have hq : (t.data.head? == some '"' && t.data.getLast? == some '"') = true := by
      simp [h1, h2]
    have hne : replaceBackslashes (trimQuotes t.data) ≠ trimQuotes t.data :=
      replaceBackslashes_ne _ hb
    show String.mk (convertL t.data) = _
    unfold convertL
    rw [if_neg hne, if_pos hq]
  · intro t hnb
    have heq : replaceBackslashes (trimQuotes t.data) = trimQuotes t.data :=
      replaceBackslashes_eq_self _ hnb
    show String.mk (convertL t.data) = t
    unfold convertL
    rw [if_pos heq]

/-- C4, witness: the amended theorem applied at a fully quoted path and at
a backslash-free text. -/
theorem c4_convert_witness :
    Convert "\"C:\\x\"" = "\"C:/x\"" ∧ Convert "abc" = "abc" :=
  ⟨((c4_convert_amended.2.1 "\"C:\\x\"" (by decide) (by decide) (by decide)).trans
      (by decide)),
   c4_convert_amended.2.2 "abc" (by decide)⟩

/-- C5: end-to-end over one processing cycle with the default
configuration: when the clipboard holds `C:\Users\test\file.txt` and its
fingerprint differs from the stored one, the cycle writes back
`C:/Users/test/file.txt` and stores the fingerprint of the written
content; a following cycle reading that same written-back content reports
no change and writes nothing. -/
theorem c5_end_to_end (h0 : String)
    (hne : QuickHash "C:\\Users\\test\\file.txt" ≠ h0) :
    processClipboardChange defaultConfig (some "C:\\Users\\test\\file.txt") true h0
      = (QuickHash "C:/Users/test/file.txt", some "C:/Users/test/file.txt") ∧
    (HasChanged (QuickHash "C:/Users/test/file.txt") "C:/Users/test/file.txt").1 = false ∧
    processClipboardChange defaultConfig (some "C:/Users/test/file.txt") true
        (QuickHash "C:/Users/test/file.txt")
      = (QuickHash "C:/Users/test/file.txt", none) := by
  refine ⟨?_, by decide, by decide⟩
  have hbeq : (QuickHash (trimSpace "C:\\Users\\test\\file.txt") == h0) = false := by
    have ht : trimSpace "C:\\Users\\test\\file.txt" = "C:\\Users\\test\\file.txt" := by
      decide
    rw [ht]
    exact beq_eq_false_iff_ne.mpr hne
  unfold processClipboardChange
  simp only [hbeq, Bool.false_eq_true, if_false,
    show (!defaultConfig.autoConvert) = false from rfl, if_true]
  decide

/-- C5, witness: the cycle theorem applied at the empty stored
fingerprint. -/
theorem c5_end_to_end_witness :
    QuickHash "C:\\Users\\test\\file.txt" ≠ "" ∧
    processClipboardChange defaultConfig (some "C:\\Users\\test\\file.txt") true ""
      = (QuickHash "C:/Users/test/file.txt", some "C:/Users/test/file.txt") :=
  ⟨by decide, (c5_end_to_end "" (by decide)).1⟩

/-- C6: `%USERPROFILE%\Documents` is eligible whenever no compiled user
exclude pattern matches its (quote-trimmed) text, and `Convert` rewrites
it to `%USERPROFILE%/Documents`. -/
theorem c6_envvar_documents (regexps : List (List RItem))
    (hnone : (regexps.any
        (fun r => matchItems r (trimQuotes "%USERPROFILE%\\Documents".data))) = false) :
    ShouldConvert regexps "%USERPROFILE%\\Documents" = true ∧
    Convert "%USERPROFILE%\\Documents" = "%USERPROFILE%/Documents" := by
  refine ⟨?_, by decide⟩
  have hex : isExcludedL regexps (trimQuotes "%USERPROFILE%\\Documents".data) = false := by
    unfold isExcludedL
    rw [hnone]
    decide
  unfold ShouldConvert shouldConvertL
  simp only [hex, Bool.false_eq_true, if_false]
  decide

/-- C6, witness: the theorem applied at the empty compiled exclude set. -/
theorem c6_envvar_documents_witness :
    ShouldConvert [] "%USERPROFILE%\\Documents" = true ∧
    Convert "%USERPROFILE%\\Documents" = "%USERPROFILE%/Documents" :=
  c6_envvar_documents [] (by decide)

/-- C7: a text whose lower-cased quote-trimmed form begins with a built-in
protocol (`http://`, `https://`, `mailto:`, `ftp://`, `file://`) is never
eligible, whatever the compiled user exclude patterns are. -/
theorem c7_protocol_precedence (regexps : List (List RItem)) (t : String)
    (h : (startsWithL (asciiLower (trimQuotes t.data)) "http://".data ||
          startsWithL (asciiLower (trimQuotes t.data)) "https://".data ||
          startsWithL (asciiLower (trimQuotes t.data)) "mailto:".data ||
          startsWithL (asciiLower (trimQuotes t.data)) "ftp://".data ||
          startsWithL (asciiLower (trimQuotes t.data)) "file://".data) = true) :
    ShouldConvert regexps t = false := by
  have hex : isExcludedL regexps (trimQuotes t.data) = true := by
    unfold isExcludedL
    by_cases hc1 : (startsWithL (asciiLower (trimQuotes t.data)) "http://".data ||
        startsWithL (asciiLower (trimQuotes t.data)) "https://".data) = true
    · simp [hc1]
    · have hc2 : (startsWithL (asciiLower (trimQuotes t.data)) "mailto:".data ||
          startsWithL (asciiLower (trimQuotes t.data)) "ftp://".data ||
          startsWithL (asciiLower (trimQuotes t.data)) "file://".data) = true := by
        simp only [Bool.or_eq_true] at h hc1 ⊢
        tauto
      simp only [Bool.or_eq_true] at hc1 hc2
      simp [hc1, hc2]
  unfold ShouldConvert shouldConvertL
  by_cases he : t.data.isEmpty
  · simp [he]
  · simp [he, hex]

/-- C7, witness: the claimed concrete instance, a URL containing a
backslash. -/
theorem c7_protocol_precedence_witness :
    ShouldConvert [] "https://example.com/a\\b" = false :=
  c7_protocol_precedence [] "https://example.com/a\\b" (by decide)

/-- C8: the glob translation escapes dots, expands stars and anchors the
result (shown on `*.tmp`); a pattern that fails to compile is skipped
without affecting the rest; and the converter built with the single
pattern `*.tmp` rejects `C:\a\b\c.tmp`. -/
theorem c8_user_pattern_exclusion :
    globToRegexChars "*.tmp".data = "^.*\\.tmp$".data ∧
    compileExcludePatterns ["[", "*.tmp"] = compileExcludePatterns ["*.tmp"] ∧
    ShouldConvert (compileExcludePatterns ["*.tmp"]) "C:\\a\\b\\c.tmp" = false := by
  decide

/-- C9: a cycle whose clipboard read fails leaves the stored fingerprint
untouched and writes nothing; and a cycle that reaches the write-back
(content changed, text eligible) but whose write fails also leaves the
stored fingerprint untouched and writes nothing. -/
theorem c9_io_failure_frame (cfg : Config) (h : String) (setOk : Bool) (raw : String)
    (hch : QuickHash (trimSpace raw) ≠ h)
    (hsc : ShouldConvert (compileExcludePatterns cfg.excludePatterns) raw = true) :
    processClipboardChange cfg none setOk h = (h, none) ∧
    processClipboardChange cfg (some raw) false h = (h, none) := by
  constructor
  · unfold processClipboardChange
    by_cases hac : cfg.autoConvert
    · simp [hac]
    · simp [hac]
  · unfold processClipboardChange
    by_cases hac : cfg.autoConvert
    · have hbeq : (QuickHash (trimSpace raw) == h) = false :=
        beq_eq_false_iff_ne.mpr hch
      have hconv : Convert raw ≠ raw := by
        intro heq
        exact convertL_ne raw.data
          (shouldConvertL_backslash (compileExcludePatterns cfg.excludePatterns) raw.data hsc)
          (congrArg String.data heq)
      have hbne : (Convert raw != raw) = true := bne_iff_ne.mpr hconv
      simp [hac, hbeq, hsc, hbne]
    · simp [hac]

/-- C9, witness: read failure and write failure on a concrete eligible
path with the default configuration and an empty stored fingerprint. -/
theorem c9_io_failure_witness :
    QuickHash (trimSpace "C:\\x") ≠ "" ∧
    processClipboardChange defaultConfig none true "" = ("", none) ∧
    processClipboardChange defaultConfig (some "C:\\x") false "" = ("", none) := by
  refine ⟨by decide, ?_, ?_⟩
  · exact (c9_io_failure_frame defaultConfig "" true "C:\\x" (by decide) (by decide)).1
  · exact (c9_io_failure_frame defaultConfig "" true "C:\\x" (by decide) (by decide)).2

/-- C10: eligibility guarantees an actual rewrite — whenever
`ShouldConvert` approves a text, `Convert` returns a different text, so
the orchestrator's write-back guard never drops an approved conversion. -/
theorem c10_eligible_implies_change (regexps : List (List RItem)) (t : String)
    (h : ShouldConvert regexps t = true) : Convert t ≠ t := by
  intro heq
  exact convertL_ne t.data (shouldConvertL_backslash regexps t.data h)
    (congrArg String.data heq)

/-- C10, witness: the theorem applied at a concrete eligible path. -/
theorem c10_eligible_implies_change_witness :
    ShouldConvert [] "C:\\x" = true ∧ Convert "C:\\x" ≠ "C:\\x" :=
  ⟨by decide, c10_eligible_implies_change [] "C:\\x" (by decide)⟩

end WinPathConvert
